import Mathlib

/-!
Verification development for the hydentity withdrawal-plan state machine
(`programs/hydentity/encrypted-ixs`).  The Rust encrypted instructions are
shallowly embedded: `u64`/`u32`/`u8` values are `Nat` with explicit wrapping
(`% 2^w`) exactly where the source performs arithmetic, `i64` values are `Int`
with explicit two's-complement wrapping (`wrapI64`) where the source adds or
subtracts, and the MPC randomness draws (`ArcisRNG::gen_integer_from_width`)
are universally quantified inputs (`Nat → Nat` streams / single `Nat` draws),
so theorems quantified over them cover every outcome of the internal draws.
Fixed-size arrays (`[T; MAX_SPLITS]`, 32/64-byte keys) are `List`s.
-/

/-- Two's-complement wrap of an integer into the `i64` range, as the Rust
release-mode semantics of `i64` overflow. -/
def wrapI64 (x : Int) : Int := (x + 2 ^ 63) % 2 ^ 64 - 2 ^ 63

/-- Reinterpretation of a `u64` bit pattern as `i64` (the Rust `as i64` cast). -/
def toI64 (n : Nat) : Int := if n < 2 ^ 63 then (n : Int) else (n : Int) - 2 ^ 64

/-- Reinterpretation of an `i64` value as `u64` (the Rust `as u64` cast). -/
def u64cast (x : Int) : Nat := (x % 2 ^ 64).toNat

/-- Wrapping `u64` addition. -/
def add64 (a b : Nat) : Nat := (a + b) % 2 ^ 64

/-- Wrapping `u64` subtraction. -/
def sub64 (a b : Nat) : Nat := (a + (2 ^ 64 - b % 2 ^ 64)) % 2 ^ 64

/-- Wrapping `u32` addition. -/
def add32 (a b : Nat) : Nat := (a + b) % 2 ^ 32

/-- Wrapping `u32` subtraction. -/
def sub32 (a b : Nat) : Nat := (a + (2 ^ 32 - b % 2 ^ 32)) % 2 ^ 32

/-- Wrapping `u8` subtraction. -/
def sub8 (a b : Nat) : Nat := (a + (256 - b % 256)) % 256

/-- The `k`-th little-endian byte of an `i64` (`timestamp.to_le_bytes()[k]`). -/
def i64LEByte (t : Int) (k : Nat) : Nat := (t % 2 ^ 64).toNat / 256 ^ k % 256

/-- Capacity of the per-plan split array.  The shared `types` module of the
repository is not part of the sources here; the spec (§3) fixes
`MAX_SPLITS = 5` for the encrypted-instruction modules, matching the
hard-coded five-element index array in `select_destinations`. -/
def MAX_SPLITS : Nat := 5

/-- All-zero 32-byte key. -/
def zeros32 : List Nat := List.replicate 32 0

/-- All-zero 64-byte signature. -/
def zeros64 : List Nat := List.replicate 64 0

/-- Plan lifecycle status (`PlanStatus` in the source; spec §3). -/
inductive PlanStatus where
  | Pending
  | InProgress
  | Completed
  | Cancelled
  | Expired
deriving DecidableEq, Repr

/-- One split of a withdrawal plan (`SplitDetail`). -/
structure SplitDetail where
  destination : List Nat
  amount : Nat
  delay_seconds : Nat
  scheduled_at : Int
  executed_at : Int
  tx_signature : List Nat
deriving DecidableEq, Repr

/-- The all-zero `SplitDetail` (the `Default` value of the Rust struct). -/
def defaultSplit : SplitDetail :=
  { destination := zeros32, amount := 0, delay_seconds := 0,
    scheduled_at := 0, executed_at := 0, tx_signature := zeros64 }

/-- A withdrawal plan (`WithdrawalPlan`); `splits` has length `MAX_SPLITS`. -/
structure WithdrawalPlan where
  plan_id : List Nat
  vault_pubkey : List Nat
  total_amount : Nat
  split_count : Nat
  executed_count : Nat
  status : PlanStatus
  created_at : Int
  expires_at : Int
  splits : List SplitDetail
deriving DecidableEq, Repr

/-- The fields of `PrivateVaultConfig` read by the embedded instructions
(the remaining fields of the source struct are never consulted by them). -/
structure PrivateVaultConfig where
  owner_pubkey : List Nat
  destinations : List (List Nat)
  destination_count : Nat
  min_splits : Nat
  max_splits : Nat
  min_delay_seconds : Nat
  max_delay_seconds : Nat
deriving DecidableEq, Repr

/-- Result of `execute_withdrawal_split` (`WithdrawalExecution`). -/
structure WithdrawalExecution where
  destination : List Nat
  amount : Nat
  tx_signature : List Nat
  executed_at : Int
  success : Bool
  error_code : Nat
deriving DecidableEq, Repr

/-- Result of `query_encrypted_balance` (`BalanceInfo`). -/
structure BalanceInfo where
  balance : Nat
  pending_withdrawals : Nat
  available : Nat
  pending_split_count : Nat
  queried_at : Int
deriving DecidableEq, Repr

/-- The split stored at index `i` of a plan. -/
def planSplit (p : WithdrawalPlan) (i : Nat) : SplitDetail :=
  p.splits.getD i defaultSplit

/-- `execute_withdrawal_split` (execute_split.rs, lines 47-107): the propose
step of the two-phase executor.  Checks index validity, already-executed,
expiry, the 60-second grace window and the balance, in that order, and
returns the first failing check's error code; on success returns the split's
destination, amount and the caller-supplied timestamp.  The stored plan is a
read-only input (`Enc<Mxe, &WithdrawalPlan>`). -/
def execute_withdrawal_split (p : WithdrawalPlan) (split_index : Nat)
    (current_timestamp : Int) (vault_balance : Nat) : WithdrawalExecution :=
  let base : WithdrawalExecution :=
    { destination := zeros32, amount := 0, tx_signature := zeros64,
      executed_at := 0, success := false, error_code := 0 }
  if split_index ≥ p.split_count ∨ split_index ≥ MAX_SPLITS then
    { base with error_code := 1 }
  else
    let split := planSplit p split_index
    if split.executed_at ≠ 0 then
      { base with error_code := 2 }
    else if current_timestamp > p.expires_at then
      { base with error_code := 3 }
    else if current_timestamp < wrapI64 (split.scheduled_at - 60) then
      { base with error_code := 4 }
    else if vault_balance < split.amount then
      { base with error_code := 5 }
    else
      { destination := split.destination, amount := split.amount,
        tx_signature := zeros64, executed_at := current_timestamp,
        success := true, error_code := 0 }

/-- The propose step as observed by the surrounding system: the instruction
consumes the stored plan read-only and reveals a `WithdrawalExecution`; its
return type carries no plan, so the stored plan is unchanged. -/
def proposeStep (p : WithdrawalPlan) (split_index : Nat)
    (current_timestamp : Int) (vault_balance : Nat) :
    WithdrawalPlan × WithdrawalExecution :=
  (p, execute_withdrawal_split p split_index current_timestamp vault_balance)

/-- `mark_split_executed` (execute_split.rs, lines 125-151): the confirm step.
If the index passes validation, it records the execution timestamp and
signature on the split, increments `executed_count` (a `u8`, hence mod 256)
and recomputes the status; otherwise it returns the plan unchanged. -/
def mark_split_executed (p : WithdrawalPlan) (split_index : Nat)
    (tx_signature : List Nat) (executed_at : Int) : WithdrawalPlan :=
  if split_index < p.split_count ∧ split_index < MAX_SPLITS then
    let s := planSplit p split_index
    let newCount := (p.executed_count + 1) % 256
    { p with
      splits := p.splits.set split_index
        { s with executed_at := executed_at, tx_signature := tx_signature },
      executed_count := newCount,
      status := if newCount ≥ p.split_count then PlanStatus.Completed
                else PlanStatus.InProgress }
  else p

/-- The non-short-circuited 32-byte comparison loop used by
`cancel_withdrawal_plan` and `verify_ownership`: a flag starts `true` and is
cleared on any byte mismatch over indices `0..32`. -/
def bytesMatch (a b : List Nat) : Bool :=
  (List.range 32).foldl
    (fun acc i => if a.getD i 0 ≠ b.getD i 0 then false else acc) true

/-- `cancel_withdrawal_plan` (execute_split.rs, lines 168-191): sets the
status to `Cancelled` when the claimed owner key matches the config owner key
byte-for-byte and the plan is not already `Completed`; touches nothing else. -/
def cancel_withdrawal_plan (p : WithdrawalPlan) (owner : List Nat)
    (cfg : PrivateVaultConfig) : WithdrawalPlan :=
  if bytesMatch owner cfg.owner_pubkey = true ∧ p.status ≠ PlanStatus.Completed
  then { p with status := PlanStatus.Cancelled }
  else p

/-- `query_encrypted_balance` (query_balance.rs, lines 42-89): sums the
amounts of unexecuted splits of a pending plan (a `u64` accumulation) and
computes the available balance with a guarded (saturating) subtraction. -/
def query_encrypted_balance (current_balance : Nat)
    (plan_opt : Option WithdrawalPlan) (current_timestamp : Int) : BalanceInfo :=
  let acc :=
    match plan_opt with
    | some plan =>
      if plan.status = PlanStatus.Pending ∨ plan.status = PlanStatus.InProgress
      then
        (List.range plan.split_count).foldl
          (fun acc i =>
            if i < MAX_SPLITS then
              if (planSplit plan i).executed_at = 0 then
                (add64 acc.1 (planSplit plan i).amount, (acc.2 + 1) % 256)
              else acc
            else acc)
          ((0 : Nat), (0 : Nat))
      else ((0 : Nat), (0 : Nat))
    | none => ((0 : Nat), (0 : Nat))
  let available :=
    if current_balance > acc.1 then current_balance - acc.1 else 0
  { balance := current_balance, pending_withdrawals := acc.1,
    available := available, pending_split_count := acc.2,
    queried_at := current_timestamp }

/-- `generate_plan_id` (generate_plan.rs, lines 123-138): the first eight
entropy bytes followed by the eight little-endian timestamp bytes. -/
def generate_plan_id (user_random : List Nat) (timestamp : Int) : List Nat :=
  (List.range 8).map (fun i => user_random.getD i 0) ++
    (List.range 8).map (i64LEByte timestamp)

/-- `generate_random_split_count` (generate_plan.rs, lines 143-156): draw an
offset into the configured `[min_splits, max_splits]` range.  The range is
computed in `u8` arithmetic before the draw is reduced by it; `r8` is the
width-8 randomness draw. -/
def generate_random_split_count (min_splits max_splits : Nat) (r8 : Nat) : Nat :=
  let range := (sub8 max_splits min_splits + 1) % 256
  let random_offset := r8 % 256
  let offset := random_offset % (range % 256)
  (min_splits + offset) % 256

/-- One non-last iteration of the `generate_split_amounts` loop
(generate_plan.rs, lines 188-206): perturb the base amount by a draw in
`[-20%, +20%]`, clamp to the remaining headroom (`remaining` minus 1000 units
per still-unassigned split, a wrapping `u64` subtraction), then force the
10,000-unit dust floor.  `hmul` is `count - i - 1` and `r` the width-16 draw. -/
def nonLastAmount (base pr remaining hmul r : Nat) : Nat :=
  let pr2 := (pr * 2 % 2 ^ 64 + 1) % 2 ^ 64
  let pert := wrapI64 (toI64 (r % 2 ^ 64 % pr2) - toI64 pr)
  let sa := u64cast (wrapI64 (toI64 base + pert))
  let hroom := sub64 remaining (hmul * 1000 % 2 ^ 64)
  let sa2 := if sa > hroom then hroom else sa
  if sa2 < 10000 then 10000 else sa2

/-- The amount loop of `generate_split_amounts`: `n` non-last splits remain
after the current one, `i` is the current index (used to address the
randomness stream), `remaining` the undistributed balance; the final split
receives `remaining` verbatim. -/
def splitLoopAux (rand : Nat → Nat) (base pr : Nat) :
    Nat → Nat → Nat → List Nat
  | 0, _, remaining => [remaining]
  | n + 1, i, remaining =>
    let a := nonLastAmount base pr remaining (n + 1) (rand i)
    a :: splitLoopAux rand base pr n (i + 1) (sub64 remaining a)

/-- Wrapping-add `v` into position `i` of a list (the post-loop
`amounts[random_idx] += remainder`). -/
def addAt : List Nat → Nat → Nat → List Nat
  | [], _, _ => []
  | a :: l, 0, v => add64 a v :: l
  | a :: l, i + 1, v => a :: addAt l i v

/-- `generate_split_amounts` (generate_plan.rs, lines 161-217).  `rand` is
the stream of width-16 draws consumed by the loop (one per non-last split)
and `randRem` the width-8 draw picking the split that absorbs the integer
division remainder. -/
def generate_split_amounts (total split_count : Nat) (rand : Nat → Nat)
    (randRem : Nat) : List Nat :=
  if split_count = 0 ∨ split_count > MAX_SPLITS then
    List.replicate MAX_SPLITS 0
  else
    let count := split_count
    let base := total / count
    let remainder := total % count
    let pr := base / 5
    let body := splitLoopAux rand base pr (count - 1) 0 total
    let amounts := body ++ List.replicate (MAX_SPLITS - count) 0
    if remainder > 0 then addAt amounts (randRem % 2 ^ 64 % count) remainder
    else amounts

/-- `generate_split_delays` (generate_plan.rs, lines 220-239): each populated
entry draws uniformly from the configured delay range in `u32` arithmetic. -/
def generate_split_delays (split_count min_delay max_delay : Nat)
    (rand : Nat → Nat) : List Nat :=
  let range := sub32 max_delay min_delay
  (List.range MAX_SPLITS).map (fun i =>
    if i < split_count then
      add32 min_delay (rand i % 2 ^ 32 % ((range + 1) % 2 ^ 32))
    else 0)

/-- Swap two positions of a list of indices (the Fisher-Yates body). -/
def listSwap (l : List Nat) (a b : Nat) : List Nat :=
  let x := l.getD a 0
  let y := l.getD b 0
  (l.set a y).set b x

/-- The Fisher-Yates loop of `select_destinations`, iterating `i` from
`avail - 1` down to `1`, swapping position `i` with a random position
`≤ i`. -/
def fyGo (rand : Nat → Nat) : Nat → List Nat → List Nat
  | 0, l => l
  | i + 1, l => fyGo rand i (listSwap l (i + 1) (rand (i + 1) % 2 ^ 64 % (i + 2)))

/-- `select_destinations` (generate_plan.rs, lines 245-280): shuffle the
five-entry index array over the first `available_count` positions and assign
destinations to splits cyclically through the shuffled order. -/
def select_destinations (available : List (List Nat))
    (available_count needed_count : Nat) (rand : Nat → Nat) : List (List Nat) :=
  if available_count = 0 ∨ needed_count = 0 then
    List.replicate MAX_SPLITS zeros32
  else
    let indices := fyGo rand (available_count - 1) [0, 1, 2, 3, 4]
    (List.range MAX_SPLITS).map (fun i =>
      if i < needed_count then
        available.getD (indices.getD (i % available_count) 0) zeros32
      else zeros32)

/-- Cumulative delay after populating split `i`
(`cumulative_delay += delays[i] as i64`). -/
def cumDelay (delays : List Nat) : Nat → Int
  | 0 => (delays.getD 0 0 : Int)
  | i + 1 => cumDelay delays i + (delays.getD (i + 1) 0 : Int)

/-- The split-population loop of `generate_withdrawal_plan` (generate_plan.rs,
lines 102-116): indices below `min split_count MAX_SPLITS` receive their
destination, amount, delay and cumulative schedule; the rest keep the
default value. -/
def buildSplits (now : Int) (split_count : Nat) (amounts delays : List Nat)
    (destinations : List (List Nat)) : List SplitDetail :=
  (List.range MAX_SPLITS).map (fun i =>
    if i < split_count then
      { destination := destinations.getD i zeros32,
        amount := amounts.getD i 0,
        delay_seconds := delays.getD i 0,
        scheduled_at := wrapI64 (now + cumDelay delays i),
        executed_at := 0,
        tx_signature := zeros64 }
    else defaultSplit)

/-- `generate_withdrawal_plan` (generate_plan.rs, lines 48-120), with the
four independent randomness sources made explicit: `r8` the split-count
draw, `randA`/`randRem` the amount draws, `randD` the delay draws and
`randS` the shuffle draws. -/
def generate_withdrawal_plan (cfg : PrivateVaultConfig) (amount_lamports : Nat)
    (user_random : List Nat) (current_timestamp : Int) (r8 : Nat)
    (randA : Nat → Nat) (randRem : Nat) (randD : Nat → Nat)
    (randS : Nat → Nat) : WithdrawalPlan :=
  let split_count :=
    generate_random_split_count cfg.min_splits cfg.max_splits r8
  let amounts := generate_split_amounts amount_lamports split_count randA randRem
  let delays :=
    generate_split_delays split_count cfg.min_delay_seconds
      cfg.max_delay_seconds randD
  let destinations :=
    select_destinations cfg.destinations cfg.destination_count split_count randS
  { plan_id := generate_plan_id user_random current_timestamp,
    vault_pubkey := cfg.owner_pubkey,
    total_amount := amount_lamports,
    split_count := split_count,
    executed_count := 0,
    status := PlanStatus.Pending,
    created_at := current_timestamp,
    expires_at := wrapI64 (current_timestamp + 86400 * 7),
    splits := buildSplits current_timestamp split_count amounts delays destinations }

/-- The scan loop of `get_next_split` (generate_plan.rs, lines 297-314):
`i` is the index of the head split, `w` the running `wait_until`.  A ready
unexecuted split stops the scan; an upcoming unexecuted split overwrites
`w` (the `found` flag is always still false at that point). -/
def getNextSplitGo (now : Int) : List SplitDetail → Nat → Int → Bool × Nat × Int
  | [], _, w => (false, 0, w)
  | s :: rest, i, w =>
    if s.executed_at = 0 then
      if s.scheduled_at ≤ now then (true, i, w)
      else getNextSplitGo now rest (i + 1) s.scheduled_at
    else getNextSplitGo now rest (i + 1) w

/-- `get_next_split` (generate_plan.rs, lines 286-317): scan the first
`min split_count MAX_SPLITS` splits for the first unexecuted ready one. -/
def get_next_split (p : WithdrawalPlan) (now : Int) : Bool × Nat × Int :=
  getNextSplitGo now (p.splits.take (min p.split_count MAX_SPLITS)) 0 0

/-- Sum of the amounts of unexecuted splits of a plan (spec §4.4: the
`pending_amount` a balance query is claimed to compute), over the stored
splits the executor can reach. -/
def pendingSum (plan : WithdrawalPlan) : Nat :=
  (((List.range plan.split_count).filter
      (fun i => decide (i < MAX_SPLITS ∧ (planSplit plan i).executed_at = 0))).map
    (fun i => (planSplit plan i).amount)).sum

/-- From the claim's words for `get_next_split`: the first-seen
`scheduled_at` among unexecuted, not-yet-ready splits of a scan. -/
def firstSeenWait (now : Int) : List SplitDetail → Int
  | [] => 0
  | s :: rest =>
    if s.executed_at = 0 ∧ now < s.scheduled_at then s.scheduled_at
    else firstSeenWait now rest

/-- Last-seen `scheduled_at` among unexecuted, not-yet-ready splits of a
scan, starting from `w0` (what the `get_next_split` loop accumulates). -/
def lastSeenWait (now : Int) (l : List SplitDetail) (w0 : Int) : Int :=
  l.foldl
    (fun w s =>
      if s.executed_at = 0 ∧ now < s.scheduled_at then s.scheduled_at else w)
    w0

/-- Index of the first unexecuted split whose schedule has been reached. -/
def firstReadyIdx (now : Int) : List SplitDetail → Option Nat
  | [] => none
  | s :: rest =>
    if s.executed_at = 0 ∧ s.scheduled_at ≤ now then some 0
    else (firstReadyIdx now rest).map (fun j => j + 1)

/-- Declarative description of `get_next_split` (the amended claim): the
smallest ready unexecuted index with the accumulated (last-seen) wait hint,
or, when none is ready, the last-seen upcoming `scheduled_at` of the scan. -/
def nextSplitSpec (p : WithdrawalPlan) (now : Int) : Bool × Nat × Int :=
  let scanned := p.splits.take (min p.split_count MAX_SPLITS)
  match firstReadyIdx now scanned with
  | some i => (true, i, lastSeenWait now (scanned.take i) 0)
  | none => (false, 0, lastSeenWait now scanned 0)

/-- A two-split plan with both splits unexecuted and scheduled in the
future (fixture for the `get_next_split` claim). -/
def planC4 : WithdrawalPlan :=
  { plan_id := [], vault_pubkey := zeros32, total_amount := 100000,
    split_count := 2, executed_count := 0, status := PlanStatus.Pending,
    created_at := 0, expires_at := 1000000,
    splits := [{ defaultSplit with amount := 60000, scheduled_at := 100 },
      { defaultSplit with amount := 40000, scheduled_at := 200 },
      defaultSplit, defaultSplit, defaultSplit] }

/-- A fresh two-split plan, nothing executed yet (fixture for the
duplicate-confirmation claim). -/
def planC2 : WithdrawalPlan :=
  { plan_id := [], vault_pubkey := zeros32, total_amount := 100000,
    split_count := 2, executed_count := 0, status := PlanStatus.Pending,
    created_at := 0, expires_at := 1000000,
    splits := [{ defaultSplit with amount := 60000, scheduled_at := 100 },
      { defaultSplit with amount := 40000, scheduled_at := 200 },
      defaultSplit, defaultSplit, defaultSplit] }

/-- A fresh two-split plan (fixture for the invalid-index confirmation
claim). -/
def planC10 : WithdrawalPlan :=
  { plan_id := [], vault_pubkey := zeros32, total_amount := 100000,
    split_count := 2, executed_count := 0, status := PlanStatus.Pending,
    created_at := 0, expires_at := 1000000,
    splits := [{ defaultSplit with amount := 60000, scheduled_at := 100 },
      { defaultSplit with amount := 40000, scheduled_at := 200 },
      defaultSplit, defaultSplit, defaultSplit] }

/-- A single-split plan whose split is scheduled at time 1000 (fixture for
the propose-step ordering/grace-boundary claim and the frame claim). -/
def planC3 : WithdrawalPlan :=
  { plan_id := [], vault_pubkey := zeros32, total_amount := 50000,
    split_count := 1, executed_count := 0, status := PlanStatus.Pending,
    created_at := 0, expires_at := 1000000,
    splits := [{ defaultSplit with
                 amount := 50000, scheduled_at := 1000,
                 destination := List.replicate 32 9 },
      defaultSplit, defaultSplit, defaultSplit, defaultSplit] }

/-- A pending plan whose single unexecuted split is worth more than the
query-time balance (fixture for the balance underflow claim). -/
def planC8 : WithdrawalPlan :=
  { plan_id := [], vault_pubkey := zeros32, total_amount := 500000,
    split_count := 1, executed_count := 0, status := PlanStatus.Pending,
    created_at := 0, expires_at := 1000000,
    splits := [{ defaultSplit with amount := 500000, scheduled_at := 100 },
      defaultSplit, defaultSplit, defaultSplit, defaultSplit] }

/-- An in-progress plan (fixture for the cancellation claim). -/
def planC6 : WithdrawalPlan :=
  { plan_id := [], vault_pubkey := zeros32, total_amount := 100000,
    split_count := 2, executed_count := 1, status := PlanStatus.InProgress,
    created_at := 0, expires_at := 1000000,
    splits := [{ defaultSplit with
                 amount := 60000, scheduled_at := 100,
                 executed_at := 150 },
      { defaultSplit with amount := 40000, scheduled_at := 200 },
      defaultSplit, defaultSplit, defaultSplit] }

/-- A vault configuration fixture whose owner key is 32 copies of 7. -/
def cfgC6 : PrivateVaultConfig :=
  { owner_pubkey := List.replicate 32 7,
    destinations := [List.replicate 32 1, List.replicate 32 2],
    destination_count := 2, min_splits := 2, max_splits := 5,
    min_delay_seconds := 300, max_delay_seconds := 1800 }

/-- A vault configuration fixture for the monotone-scheduling witness. -/
def cfgC9 : PrivateVaultConfig :=
  { owner_pubkey := List.replicate 32 7,
    destinations := [List.replicate 32 1, List.replicate 32 2],
    destination_count := 2, min_splits := 2, max_splits := 5,
    min_delay_seconds := 300, max_delay_seconds := 1800 }

/-- A value already inside the `i64` range is fixed by the wrap. -/
theorem wrapI64_eq_self (x : Int) (h1 : -(2 ^ 63) ≤ x) (h2 : x < 2 ^ 63) :
    wrapI64 x = x := by
  unfold wrapI64
  omega

/-- Reinterpreting an `i64`-wrapped value as `u64` ignores the wrap. -/
theorem u64cast_wrapI64 (x : Int) : u64cast (wrapI64 x) = u64cast x := by
  unfold u64cast wrapI64
  congr 1
  omega

/-- `getD` of an in-range `set` returns the new element. -/
theorem getD_set_self (l : List SplitDetail) (i : Nat) (a : SplitDetail)
    (h : i < l.length) : (l.set i a).getD i defaultSplit = a := by
  induction l generalizing i with
  | nil => simp at h
  | cons x xs ih =>
    cases i with
    | zero => rfl
    | succ j =>
      simp only [List.set, List.getD_cons_succ]
      exact ih j (by simpa using h)

/-- `addAt` leaves every other position unchanged. -/
theorem addAt_getD_ne (l : List Nat) (i v k : Nat) (h : k ≠ i) :
    (addAt l i v).getD k 0 = l.getD k 0 := by
  induction l generalizing i k with
  | nil => rfl
  | cons x xs ih =>
    cases i with
    | zero =>
      cases k with
      | zero => exact absurd rfl h
      | succ j => rfl
    | succ m =>
      cases k with
      | zero => rfl
      | succ j =>
        simp only [addAt, List.getD_cons_succ]
        exact ih m j (by omega)

/-- `addAt` wrapping-adds at an in-range position. -/
theorem addAt_getD_self (l : List Nat) (i v : Nat) (h : i < l.length) :
    (addAt l i v).getD i 0 = add64 (l.getD i 0) v := by
  induction l generalizing i with
  | nil => simp at h
  | cons x xs ih =>
    cases i with
    | zero => rfl
    | succ m =>
      simp only [addAt, List.getD_cons_succ]
      exact ih m (by simpa using h)

/-- `getD` through a `map` over `List.range`. -/
theorem getD_range_map {α : Type} (n : Nat) :
    ∀ (f : Nat → α) (k : Nat) (d : α),
      ((List.range n).map f).getD k d = if k < n then f k else d := by
  induction n with
  | zero => intro f k d; simp
  | succ m ih =>
    intro f k d
    rw [List.range_succ_eq_map]
    cases k with
    | zero => simp
    | succ j =>
      simp only [List.map_cons, List.getD_cons_succ, List.map_map]
      rw [show f ∘ Nat.succ = fun x => f (Nat.succ x) from rfl]
      rw [ih (fun x => f (Nat.succ x)) j d]
      by_cases hj : j < m
      · rw [if_pos hj, if_pos (by omega)]
      · rw [if_neg hj, if_neg (by omega)]


/-- C1: the amount-partition step does not conserve the total.  At
`total = 100000`, `count = 3` (all randomness draws zero) the generated
amounts sum to `100001 = total + total % count`: the last split already
receives the whole undistributed remainder, and the post-loop step adds the
integer-division remainder a second time.  This contradicts the function's
own documentation, which promises amounts that sum to the total. -/
theorem c1_remainder_double_count :
    (generate_split_amounts 100000 3 (fun _ => 0) 0).sum = 100001 ∧
    (generate_split_amounts 100000 3 (fun _ => 0) 0).sum ≠ 100000 := by
  constructor <;> decide

/-- C2 counterexample: confirming split 0 of a fresh two-split plan twice
raises `executed_count` from 0 to 1 and then to 2 — the second call does not
leave it unchanged, and even flips the status to `Completed` although only
one split was ever transferred. -/
theorem c2_double_confirm_refuted :
    (mark_split_executed planC2 0 zeros64 500).executed_count = 1 ∧
    (mark_split_executed (mark_split_executed planC2 0 zeros64 500) 0
      zeros64 600).executed_count = 2 ∧
    (mark_split_executed (mark_split_executed planC2 0 zeros64 500) 0
      zeros64 600).status = PlanStatus.Completed := by
  refine ⟨?_, ?_, ?_⟩ <;> decide

/-- C4 counterexample: with both splits of `planC4` unexecuted and upcoming
(schedules 100 and 200, `now = 50`), `get_next_split` returns wait hint 200
— the last-seen upcoming `scheduled_at` — while the claim predicts the
first-seen value 100. -/
theorem c4_first_seen_refuted :
    get_next_split planC4 50 = (false, 0, 200) ∧
    firstSeenWait 50 (planC4.splits.take (min planC4.split_count MAX_SPLITS))
      = 100 := by
  constructor <;> decide

/-- C5 counterexample: at `total = 30000`, `count = 3` (so
`total / count = 10000`, satisfying the claim's premise) with both loop
draws equal to 4000 (maximal positive perturbation), the first two splits
take 12000 each and the last split is left with 6000, below the 10,000-unit
dust floor. -/
theorem c5_dust_floor_refuted :
    30000 / 3 ≥ 10000 ∧
    (generate_split_amounts 30000 3 (fun _ => 4000) 0).getD 2 0 = 6000 ∧
    ¬(10000 ≤ (generate_split_amounts 30000 3 (fun _ => 4000) 0).getD 2 0) := by
  refine ⟨?_, ?_, ?_⟩ <;> decide

/-- C10 counterexample: confirming split index 7 of a two-split plan — an
index that fails validation — returns the plan unchanged.  The caller gets
no structured failure result of any kind: the operation's only output is the
(unmodified) plan, so the validation failure is silently recovered. -/
theorem c10_silent_recovery_refuted :
    mark_split_executed planC10 7 zeros64 99 = planC10 := by
  decide

/-- C3: `execute_withdrawal_split` checks its five preconditions in the fixed
order index-validity (error 1), already-executed (error 2), plan-expired
(error 3), too-early (error 4), insufficient-balance (error 5); the first
failing check alone determines the reported code, and the 60-second grace
boundary is inclusive: with `now = scheduled_at - 60` exactly (and the later
balance check passing) the call succeeds, while `now < scheduled_at - 60`
reports error 4.  The two range hypotheses keep `scheduled_at - 60` inside
the `i64` range, so the wrapped subtraction agrees with the mathematical
one. -/
theorem c3_check_order (p : WithdrawalPlan) (idx : Nat) (now : Int) (bal : Nat)
    (hs1 : -(2 ^ 63) + 60 ≤ (planSplit p idx).scheduled_at)
    (hs2 : (planSplit p idx).scheduled_at < 2 ^ 63) :
    (¬(idx < p.split_count ∧ idx < MAX_SPLITS) →
      (execute_withdrawal_split p idx now bal).error_code = 1 ∧
      (execute_withdrawal_split p idx now bal).success = false) ∧
    (idx < p.split_count → idx < MAX_SPLITS →
      (planSplit p idx).executed_at ≠ 0 →
      (execute_withdrawal_split p idx now bal).error_code = 2 ∧
      (execute_withdrawal_split p idx now bal).success = false) ∧
    (idx < p.split_count → idx < MAX_SPLITS →
      (planSplit p idx).executed_at = 0 → now > p.expires_at →
      (execute_withdrawal_split p idx now bal).error_code = 3 ∧
      (execute_withdrawal_split p idx now bal).success = false) ∧
    (idx < p.split_count → idx < MAX_SPLITS →
      (planSplit p idx).executed_at = 0 → now ≤ p.expires_at →
      now < (planSplit p idx).scheduled_at - 60 →
      (execute_withdrawal_split p idx now bal).error_code = 4 ∧
      (execute_withdrawal_split p idx now bal).success = false) ∧
    (idx < p.split_count → idx < MAX_SPLITS →
      (planSplit p idx).executed_at = 0 → now ≤ p.expires_at →
      (planSplit p idx).scheduled_at - 60 ≤ now →
      bal < (planSplit p idx).amount →
      (execute_withdrawal_split p idx now bal).error_code = 5 ∧
      (execute_withdrawal_split p idx now bal).success = false) ∧
    (idx < p.split_count → idx < MAX_SPLITS →
      (planSplit p idx).executed_at = 0 → now ≤ p.expires_at →
      (planSplit p idx).scheduled_at - 60 ≤ now →
      (planSplit p idx).amount ≤ bal →
      (execute_withdrawal_split p idx now bal).success = true ∧
      (execute_withdrawal_split p idx now bal).error_code = 0) := by
  have hw : wrapI64 ((planSplit p idx).scheduled_at - 60)
      = (planSplit p idx).scheduled_at - 60 :=
    wrapI64_eq_self _ (by omega) (by omega)
  simp only [execute_withdrawal_split, hw, MAX_SPLITS]
  refine ⟨?_, ?_, ?_, ?_, ?_, ?_⟩
  · intro h
    rw [if_pos (by omega)]
    exact ⟨rfl, rfl⟩
  · intro h1 h2 h3
    rw [if_neg (by omega), if_pos h3]
    exact ⟨rfl, rfl⟩
  · intro h1 h2 h3 h4
    rw [if_neg (by omega), if_neg (by omega), if_pos (by omega)]
    exact ⟨rfl, rfl⟩
  · intro h1 h2 h3 h4 h5
    rw [if_neg (by omega), if_neg (by omega), if_neg (by omega),
      if_pos (by omega)]
    exact ⟨rfl, rfl⟩
  · intro h1 h2 h3 h4 h5 h6
    rw [if_neg (by omega), if_neg (by omega), if_neg (by omega),
      if_neg (by omega), if_pos (by omega)]
    exact ⟨rfl, rfl⟩
  · intro h1 h2 h3 h4 h5 h6
    rw [if_neg (by omega), if_neg (by omega), if_neg (by omega),
      if_neg (by omega), if_neg (by omega)]
    exact ⟨rfl, rfl⟩

/-- Closed witness for the check-order claim: on `planC3` (split scheduled at
1000) a propose at `now = 940 = 1000 - 60`, exactly on the grace boundary,
with sufficient balance, succeeds with error code 0. -/
theorem c3_check_order_witness :
    (execute_withdrawal_split planC3 0 940 60000).success = true ∧
    (execute_withdrawal_split planC3 0 940 60000).error_code = 0 :=
  (c3_check_order planC3 0 940 60000 (by decide) (by decide)).2.2.2.2.2
    (by decide) (by decide) (by decide) (by decide) (by decide) (by decide)

/-- C7: a successful propose leaves the plan entirely unchanged — the
instruction reads the stored plan and outputs only a `WithdrawalExecution`,
so the stored plan after the step is the input plan (no split marked
executed, `executed_count` untouched, status untouched) — and the revealed
result carries the split's destination, the split's amount and the
caller-supplied timestamp as the execution timestamp. -/
theorem c7_propose_frame (p : WithdrawalPlan) (idx : Nat) (now : Int)
    (bal : Nat) (h : (execute_withdrawal_split p idx now bal).success = true) :
    (proposeStep p idx now bal).1 = p ∧
    (execute_withdrawal_split p idx now bal).destination
      = (planSplit p idx).destination ∧
    (execute_withdrawal_split p idx now bal).amount
      = (planSplit p idx).amount ∧
    (execute_withdrawal_split p idx now bal).executed_at = now := by
  refine ⟨rfl, ?_⟩
  revert h
  simp only [execute_withdrawal_split]
  split_ifs <;> intro h <;> simp_all

/-- Closed witness for the propose-frame claim at a concrete successful
propose on `planC3`. -/
theorem c7_propose_frame_witness :
    (proposeStep planC3 0 940 60000).1 = planC3 ∧
    (execute_withdrawal_split planC3 0 940 60000).destination
      = (planSplit planC3 0).destination ∧
    (execute_withdrawal_split planC3 0 940 60000).amount
      = (planSplit planC3 0).amount ∧
    (execute_withdrawal_split planC3 0 940 60000).executed_at = 940 :=
  c7_propose_frame planC3 0 940 60000 (by decide)

/-- The mismatch-flag fold underlying `bytesMatch`, reduced to `List.all`. -/
theorem bytesMatch_foldl (a b : List Nat) :
    ∀ (l : List Nat) (acc : Bool),
      l.foldl (fun acc i => if a.getD i 0 ≠ b.getD i 0 then false else acc) acc
        = (acc && l.all (fun i => a.getD i 0 == b.getD i 0)) := by
  intro l
  induction l with
  | nil => intro acc; simp
  | cons x xs ih =>
    intro acc
    simp only [List.foldl_cons, List.all_cons]
    by_cases hx : a.getD x 0 = b.getD x 0
    · rw [if_neg (by simpa using hx), ih, beq_iff_eq.mpr hx, Bool.true_and]
    · rw [if_pos (by simpa using hx), ih]
      have hb : (a.getD x 0 == b.getD x 0) = false := by simpa using hx
      rw [hb, Bool.false_and, Bool.and_false]

/-- `bytesMatch` succeeds exactly when all 32 byte positions agree. -/
theorem bytesMatch_true_iff (a b : List Nat) :
    bytesMatch a b = true ↔ ∀ i < 32, a.getD i 0 = b.getD i 0 := by
  unfold bytesMatch
  rw [bytesMatch_foldl]
  simp only [Bool.true_and, List.all_eq_true, List.mem_range, beq_iff_eq]

/-- Two 32-byte lists agreeing at every `getD` position are equal. -/
theorem list32_ext (a b : List Nat) (ha : a.length = 32) (hb : b.length = 32)
    (h : ∀ i < 32, a.getD i 0 = b.getD i 0) : a = b := by
  apply List.ext_get (by rw [ha, hb])
  intro i h1 h2
  have hi : i < 32 := by omega
  have hgd := h i hi
  rwa [List.getD_eq_getElem a 0 h1, List.getD_eq_getElem b 0 h2] at hgd

/-- C6: `cancel_withdrawal_plan` sets the status to `Cancelled` exactly when
the claimed 32-byte owner key equals the config owner key and the plan is
not already `Completed`; cancelling a `Completed` plan is a no-op, and the
operation never changes `executed_count` or any split's recorded
execution. -/
theorem c6_cancel (p : WithdrawalPlan) (owner : List Nat)
    (cfg : PrivateVaultConfig) (h1 : owner.length = 32)
    (h2 : cfg.owner_pubkey.length = 32) :
    ((cancel_withdrawal_plan p owner cfg).status =
      if owner = cfg.owner_pubkey ∧ p.status ≠ PlanStatus.Completed
      then PlanStatus.Cancelled else p.status) ∧
    (p.status = PlanStatus.Completed →
      (cancel_withdrawal_plan p owner cfg).status = PlanStatus.Completed) ∧
    (cancel_withdrawal_plan p owner cfg).executed_count = p.executed_count ∧
    (cancel_withdrawal_plan p owner cfg).splits = p.splits := by
  have hmatch : bytesMatch owner cfg.owner_pubkey = true ↔
      owner = cfg.owner_pubkey := by
    rw [bytesMatch_true_iff]
    constructor
    · intro h
      exact list32_ext owner cfg.owner_pubkey h1 h2 h
    · intro h i hi
      rw [h]
  unfold cancel_withdrawal_plan
  by_cases hm : owner = cfg.owner_pubkey
  · by_cases hs : p.status = PlanStatus.Completed
    · rw [if_neg (by simp [hs])]
      simp [hm, hs]
    · rw [if_pos ⟨hmatch.mpr hm, hs⟩]
      simp [hm, hs]
  · rw [if_neg (by intro hc; exact hm (hmatch.mp hc.1))]
    have hnc : ¬(owner = cfg.owner_pubkey ∧ p.status ≠ PlanStatus.Completed) := by
      intro hc; exact hm hc.1
    simp [hnc]

/-- Closed witness for the cancellation claim: the matching owner cancels
the in-progress `planC6`, with `executed_count` and splits untouched. -/
theorem c6_cancel_witness :
    ((cancel_withdrawal_plan planC6 (List.replicate 32 7) cfgC6).status =
      if List.replicate 32 7 = cfgC6.owner_pubkey ∧
         planC6.status ≠ PlanStatus.Completed
      then PlanStatus.Cancelled else planC6.status) ∧
    (planC6.status = PlanStatus.Completed →
      (cancel_withdrawal_plan planC6 (List.replicate 32 7) cfgC6).status
        = PlanStatus.Completed) ∧
    (cancel_withdrawal_plan planC6 (List.replicate 32 7) cfgC6).executed_count
      = planC6.executed_count ∧
    (cancel_withdrawal_plan planC6 (List.replicate 32 7) cfgC6).splits
      = planC6.splits :=
  c6_cancel planC6 (List.replicate 32 7) cfgC6 (by decide) (by decide)

/-- The balance-accumulation fold of `query_encrypted_balance`, related to
the mathematical sum of unexecuted amounts (the accumulator is a `u64`, so
the running total is taken mod `2 ^ 64`). -/
theorem query_foldl_sum (plan : WithdrawalPlan) :
    ∀ (l : List Nat) (a b : Nat), a < 2 ^ 64 →
      (l.foldl
        (fun acc i =>
          if i < MAX_SPLITS then
            if (planSplit plan i).executed_at = 0 then
              (add64 acc.1 (planSplit plan i).amount, (acc.2 + 1) % 256)
            else acc
          else acc)
        (a, b)).1
      = (a + (((l.filter (fun i =>
          decide (i < MAX_SPLITS ∧ (planSplit plan i).executed_at = 0))).map
            (fun i => (planSplit plan i).amount)).sum)) % 2 ^ 64 := by
  intro l
  induction l with
  | nil =>
    intro a b ha
    simp
    omega
  | cons x xs ih =>
    intro a b ha
    simp only [List.foldl_cons, List.filter_cons]
    by_cases h5 : x < MAX_SPLITS
    · by_cases he : (planSplit plan x).executed_at = 0
      · rw [if_pos h5, if_pos he]
        rw [ih _ _ (by unfold add64; omega)]
        rw [if_pos (by simp [h5, he])]
        simp only [List.map_cons, List.sum_cons, add64]
        omega
      · rw [if_pos h5, if_neg he]
        rw [ih _ _ ha]
        rw [if_neg (by simp [h5, he])]
    · rw [if_neg h5]
      rw [ih _ _ ha]
      rw [if_neg (by simp [h5])]

/-- C8: `query_encrypted_balance` computes `pending_withdrawals` as the sum
of the amounts of the pending plan's unexecuted splits and `available` as
`max (balance - pending) 0` — a saturating subtraction — so whenever the
pending amount exceeds the balance, `available` is exactly 0 and never an
underflowed large value.  (The accumulator is a `u64`, so the mathematical
sum is required to fit; every real plan's amounts do.) -/
theorem c8_balance (bal : Nat) (plan : WithdrawalPlan) (now : Int)
    (hst : plan.status = PlanStatus.Pending ∨
           plan.status = PlanStatus.InProgress)
    (hsum : pendingSum plan < 2 ^ 64) :
    (query_encrypted_balance bal (some plan) now).pending_withdrawals
      = pendingSum plan ∧
    ((query_encrypted_balance bal (some plan) now).available : Int)
      = max ((bal : Int) - (pendingSum plan : Int)) 0 ∧
    (pendingSum plan > bal →
      (query_encrypted_balance bal (some plan) now).available = 0) := by
  have hfold : ((List.range plan.split_count).foldl
      (fun acc i =>
        if i < MAX_SPLITS then
          if (planSplit plan i).executed_at = 0 then
            (add64 acc.1 (planSplit plan i).amount, (acc.2 + 1) % 256)
          else acc
        else acc)
      ((0 : Nat), (0 : Nat))).1 = pendingSum plan := by
    rw [query_foldl_sum plan (List.range plan.split_count) 0 0 (by omega)]
    unfold pendingSum at hsum ⊢
    omega
  simp only [query_encrypted_balance]
  rw [if_pos hst, hfold]
  refine ⟨rfl, ?_, ?_⟩
  · by_cases hb : bal > pendingSum plan
    · rw [if_pos hb]
      omega
    · rw [if_neg hb]
      omega
  · intro hgt
    rw [if_neg (by omega)]

/-- Closed witness for the balance claim: `planC8` has a pending amount of
500000 against a balance of 100, and the query returns `available = 0`. -/
theorem c8_balance_witness :
    (query_encrypted_balance 100 (some planC8) 0).pending_withdrawals
      = pendingSum planC8 ∧
    ((query_encrypted_balance 100 (some planC8) 0).available : Int)
      = max ((100 : Int) - (pendingSum planC8 : Int)) 0 ∧
    (pendingSum planC8 > 100 →
      (query_encrypted_balance 100 (some planC8) 0).available = 0) :=
  c8_balance 100 planC8 0 (by decide) (by decide)

/-- C2 (amended): `mark_split_executed` performs no already-executed check.
Confirming a valid split index twice increments `executed_count` twice (mod
256, it being a `u8`); the `executed_at == 0` duplicate guard lives only in
the propose step `execute_withdrawal_split`, which reports the "already
executed" error code 2 when asked to propose a split that a confirm has
already stamped with a nonzero timestamp. -/
theorem c2_amended (p : WithdrawalPlan) (idx : Nat) (sig sig2 : List Nat)
    (t t2 now : Int) (bal : Nat) (hidx : idx < p.split_count)
    (hcap : idx < MAX_SPLITS) (hlen : p.splits.length = MAX_SPLITS)
    (ht : t ≠ 0) :
    (mark_split_executed (mark_split_executed p idx sig t) idx sig2 t2).executed_count
      = (p.executed_count + 2) % 256 ∧
    (execute_withdrawal_split (mark_split_executed p idx sig t) idx now
      bal).error_code = 2 := by
  have hguard : idx < p.split_count ∧ idx < MAX_SPLITS := ⟨hidx, hcap⟩
  have hq : mark_split_executed p idx sig t =
      { p with
        splits := p.splits.set idx
          { planSplit p idx with executed_at := t, tx_signature := sig },
        executed_count := (p.executed_count + 1) % 256,
        status := if (p.executed_count + 1) % 256 ≥ p.split_count
                  then PlanStatus.Completed else PlanStatus.InProgress } := by
    unfold mark_split_executed
    rw [if_pos hguard]
  constructor
  · rw [hq]
    unfold mark_split_executed
    rw [if_pos (show _ ∧ _ from ⟨hidx, hcap⟩)]
    simp only
    omega
  · rw [hq]
    have hsplit : planSplit
        { p with
          splits := p.splits.set idx
            { planSplit p idx with executed_at := t, tx_signature := sig },
          executed_count := (p.executed_count + 1) % 256,
          status := if (p.executed_count + 1) % 256 ≥ p.split_count
                    then PlanStatus.Completed else PlanStatus.InProgress }
        idx = { planSplit p idx with executed_at := t, tx_signature := sig } := by
      unfold planSplit
      simp only
      exact getD_set_self p.splits idx _ (by omega)
    unfold execute_withdrawal_split
    rw [if_neg (by simp only; omega), hsplit]
    rw [if_pos (by simpa using ht)]

/-- Closed witness for the amended duplicate-confirmation claim, on the
fresh two-split `planC2`. -/
theorem c2_amended_witness :
    (mark_split_executed (mark_split_executed planC2 0 zeros64 500) 0
      zeros64 600).executed_count = (planC2.executed_count + 2) % 256 ∧
    (execute_withdrawal_split (mark_split_executed planC2 0 zeros64 500) 0
      700 100000).error_code = 2 :=
  c2_amended planC2 0 zeros64 zeros64 500 600 700 100000 (by decide)
    (by decide) (by decide) (by decide)

/-- C10 (amended): a confirm (`mark_split_executed`) whose split index fails
validation is silently recovered — the plan is returned unchanged and the
caller receives no failure indication of any kind; a structured failure
result for an invalid index (error code 1) is produced only by the propose
step `execute_withdrawal_split`. -/
theorem c10_amended (p : WithdrawalPlan) (idx : Nat) (sig : List Nat)
    (t now : Int) (bal : Nat) (h : idx ≥ p.split_count ∨ idx ≥ MAX_SPLITS) :
    mark_split_executed p idx sig t = p ∧
    (execute_withdrawal_split p idx now bal).error_code = 1 ∧
    (execute_withdrawal_split p idx now bal).success = false := by
  refine ⟨?_, ?_, ?_⟩
  · unfold mark_split_executed
    rw [if_neg (by omega)]
  · unfold execute_withdrawal_split
    rw [if_pos h]
  · unfold execute_withdrawal_split
    rw [if_pos h]

/-- Closed witness for the amended invalid-index confirmation claim. -/
theorem c10_amended_witness :
    mark_split_executed planC10 7 zeros64 99 = planC10 ∧
    (execute_withdrawal_split planC10 7 0 0).error_code = 1 ∧
    (execute_withdrawal_split planC10 7 0 0).success = false :=
  c10_amended planC10 7 zeros64 99 0 0 (by decide)

/-- The `get_next_split` scan loop, characterized against `firstReadyIdx`
and the accumulated (last-seen) wait hint. -/
theorem getNextSplitGo_spec (now : Int) :
    ∀ (l : List SplitDetail) (i : Nat) (w : Int),
      getNextSplitGo now l i w =
        match firstReadyIdx now l with
        | some j => (true, i + j, lastSeenWait now (l.take j) w)
        | none => (false, 0, lastSeenWait now l w) := by
  intro l
  induction l with
  | nil =>
    intro i w
    rfl
  | cons s rest ih =>
    intro i w
    rw [show getNextSplitGo now (s :: rest) i w =
        (if s.executed_at = 0 then
          if s.scheduled_at ≤ now then (true, i, w)
          else getNextSplitGo now rest (i + 1) s.scheduled_at
        else getNextSplitGo now rest (i + 1) w) from rfl]
    rw [show firstReadyIdx now (s :: rest) =
        (if s.executed_at = 0 ∧ s.scheduled_at ≤ now then some 0
         else (firstReadyIdx now rest).map (fun j => j + 1)) from rfl]
    by_cases h1 : s.executed_at = 0
    · by_cases h2 : s.scheduled_at ≤ now
      · rw [if_pos h1, if_pos h2, if_pos ⟨h1, h2⟩]
        simp [lastSeenWait]
      · rw [if_pos h1, if_neg h2, if_neg (fun hc => h2 hc.2), ih]
        cases hfr : firstReadyIdx now rest with
        | some j =>
          simp only [hfr, Option.map_some']
          have htake : List.take (j + 1) (s :: rest) = s :: List.take j rest :=
            rfl
          have hlsw : lastSeenWait now (s :: List.take j rest) w
              = lastSeenWait now (List.take j rest) s.scheduled_at := by
            unfold lastSeenWait
            simp only [List.foldl_cons]
            rw [if_pos ⟨h1, by omega⟩]
          rw [htake, hlsw, show i + 1 + j = i + (j + 1) by omega]
        | none =>
          simp only [hfr, Option.map_none']
          have hlsw : lastSeenWait now (s :: rest) w
              = lastSeenWait now rest s.scheduled_at := by
            unfold lastSeenWait
            simp only [List.foldl_cons]
            rw [if_pos ⟨h1, by omega⟩]
          rw [hlsw]
    · rw [if_neg h1, if_neg (fun hc => h1 hc.1), ih]
      cases hfr : firstReadyIdx now rest with
      | some j =>
        simp only [hfr, Option.map_some']
        have htake : List.take (j + 1) (s :: rest) = s :: List.take j rest :=
          rfl
        have hlsw : lastSeenWait now (s :: List.take j rest) w
            = lastSeenWait now (List.take j rest) w := by
          unfold lastSeenWait
          simp only [List.foldl_cons]
          rw [if_neg (fun hc => h1 hc.1)]
        rw [htake, hlsw, show i + 1 + j = i + (j + 1) by omega]
      | none =>
        simp only [hfr, Option.map_none']
        have hlsw : lastSeenWait now (s :: rest) w
            = lastSeenWait now rest w := by
          unfold lastSeenWait
          simp only [List.foldl_cons]
          rw [if_neg (fun hc => h1 hc.1)]
        rw [hlsw]

/-- C4 (amended): `get_next_split` returns `(true, i, w)` where `i` is the
smallest index (within the scanned `min split_count MAX_SPLITS` prefix) of
an unexecuted split with `scheduled_at ≤ now` and `w` the last-seen
`scheduled_at` among unexecuted not-yet-ready splits before `i` (0 if none,
so `(true, i, 0)` for schedule-monotone plans); if no scanned unexecuted
split is ready it returns `(false, 0, w)` where `w` is the last-seen — not
the first-seen — `scheduled_at` among unexecuted not-yet-ready splits of
the whole scan. -/
theorem c4_amended (p : WithdrawalPlan) (now : Int) :
    get_next_split p now = nextSplitSpec p now := by
  unfold get_next_split nextSplitSpec
  rw [getNextSplitGo_spec]
  cases hfr : firstReadyIdx now (p.splits.take (min p.split_count MAX_SPLITS)) with
  | some j => simp [hfr]
  | none => simp [hfr]

/-- The generated split count never exceeds `max_splits` for a valid
configuration range. -/
theorem split_count_le_max (mn mx r8 : Nat) (h1 : mn ≤ mx) (h2 : mx ≤ 5) :
    generate_random_split_count mn mx r8 ≤ mx := by
  simp only [generate_random_split_count]
  have hs : sub8 mx mn = mx - mn := by unfold sub8; omega
  rw [hs]
  have key : r8 % 256 % ((mx - mn + 1) % 256 % 256) < mx - mn + 1 := by
    rw [show (mx - mn + 1) % 256 % 256 = mx - mn + 1 by omega]
    exact Nat.mod_lt _ (by omega)
  omega

/-- Every entry of a generated delay list fits in a `u32`. -/
theorem generate_split_delays_lt (c mn mx : Nat) (rand : Nat → Nat) (k : Nat) :
    (generate_split_delays c mn mx rand).getD k 0 < 2 ^ 32 := by
  simp only [generate_split_delays]
  rw [getD_range_map]
  by_cases hk : k < MAX_SPLITS
  · rw [if_pos hk]
    by_cases hc : k < c
    · rw [if_pos hc]
      unfold add32
      omega
    · rw [if_neg hc]
      omega
  · rw [if_neg hk]
    omega

/-- Cumulative delays are non-negative. -/
theorem cumDelay_nonneg (delays : List Nat) (i : Nat) :
    0 ≤ cumDelay delays i := by
  induction i with
  | zero =>
    unfold cumDelay
    positivity
  | succ j ih =>
    unfold cumDelay
    positivity

/-- Cumulative delays are monotone in the split index. -/
theorem cumDelay_mono (delays : List Nat) (i j : Nat) (h : i ≤ j) :
    cumDelay delays i ≤ cumDelay delays j := by
  induction j with
  | zero =>
    rw [Nat.le_zero.mp h]
  | succ m ih =>
    rcases Nat.lt_or_ge i (m + 1) with hlt | hge
    · have := ih (by omega)
      calc cumDelay delays i ≤ cumDelay delays m := this
        _ ≤ cumDelay delays m + (delays.getD (m + 1) 0 : Int) :=
          le_add_of_nonneg_right (by positivity)
        _ = cumDelay delays (m + 1) := rfl
    · rw [show i = m + 1 by omega]

/-- Cumulative delays over entries below `2 ^ 32` are bounded linearly. -/
theorem cumDelay_le (delays : List Nat)
    (hd : ∀ k, delays.getD k 0 < 2 ^ 32) (i : Nat) :
    cumDelay delays i ≤ (i + 1) * (2 ^ 32 - 1) := by
  induction i with
  | zero =>
    unfold cumDelay
    have := hd 0
    omega
  | succ m ih =>
    unfold cumDelay
    have := hd (m + 1)
    have h2 : ((m + 1 : Nat) + 1) * ((2 : Int) ^ 32 - 1)
        = (m + 1) * (2 ^ 32 - 1) + (2 ^ 32 - 1) := by push_cast; ring
    omega

/-- C9: for every generated plan and every outcome of the internal
randomness draws, `scheduled_at` is non-decreasing across split index: the
cumulative-delay accumulator only ever grows by the (non-negative) `u32`
delay of the next split.  The hypotheses keep the configured split range
valid (`min ≤ max ≤ MAX_SPLITS`) and the creation timestamp far enough from
the `i64` boundary that the at-most `5 * 2^32` seconds of cumulative delay
cannot wrap. -/
theorem c9_monotone (cfg : PrivateVaultConfig) (amount : Nat)
    (user_random : List Nat) (now : Int) (r8 : Nat) (randA : Nat → Nat)
    (randRem : Nat) (randD randS : Nat → Nat) (i j : Nat)
    (hms : cfg.min_splits ≤ cfg.max_splits) (hmx : cfg.max_splits ≤ 5)
    (hn1 : -(2 ^ 63) ≤ now) (hn2 : now + 5 * 2 ^ 32 < 2 ^ 63) (hij : i ≤ j)
    (hj : j < (generate_withdrawal_plan cfg amount user_random now r8 randA
      randRem randD randS).split_count) :
    (planSplit (generate_withdrawal_plan cfg amount user_random now r8 randA
      randRem randD randS) i).scheduled_at ≤
    (planSplit (generate_withdrawal_plan cfg amount user_random now r8 randA
      randRem randD randS) j).scheduled_at := by
  have hcount : (generate_withdrawal_plan cfg amount user_random now r8 randA
      randRem randD randS).split_count
      = generate_random_split_count cfg.min_splits cfg.max_splits r8 := rfl
  set c := generate_random_split_count cfg.min_splits cfg.max_splits r8 with hc
  have hc5 : c ≤ 5 :=
    le_trans (split_count_le_max cfg.min_splits cfg.max_splits r8 hms hmx) hmx
  rw [hcount] at hj
  have hsplits : (generate_withdrawal_plan cfg amount user_random now r8 randA
      randRem randD randS).splits
      = buildSplits now c
          (generate_split_amounts amount c randA randRem)
          (generate_split_delays c cfg.min_delay_seconds cfg.max_delay_seconds
            randD)
          (select_destinations cfg.destinations cfg.destination_count c
            randS) := rfl
  set delays := generate_split_delays c cfg.min_delay_seconds
    cfg.max_delay_seconds randD with hdel
  have hdlt : ∀ k, delays.getD k 0 < 2 ^ 32 := fun k =>
    generate_split_delays_lt c cfg.min_delay_seconds cfg.max_delay_seconds
      randD k
  have hsched : ∀ k, k < c →
      (planSplit (generate_withdrawal_plan cfg amount user_random now r8
        randA randRem randD randS) k).scheduled_at
      = wrapI64 (now + cumDelay delays k) := by
    intro k hk
    unfold planSplit
    rw [hsplits]
    unfold buildSplits
    rw [getD_range_map]
    rw [if_pos (by unfold MAX_SPLITS; omega), if_pos hk]
  have hwrap : ∀ k, k < c →
      wrapI64 (now + cumDelay delays k) = now + cumDelay delays k := by
    intro k hk
    apply wrapI64_eq_self
    · have := cumDelay_nonneg delays k
      omega
    · have := cumDelay_le delays hdlt k
      have hk5 : (k : Int) + 1 ≤ 5 := by omega
      nlinarith [cumDelay_le delays hdlt k]
  rw [hsched i (by omega), hsched j hj, hwrap i (by omega), hwrap j hj]
  have := cumDelay_mono delays i j hij
  omega

/-- Closed witness for the monotone-scheduling claim: a concrete generated
plan (all draws zero) has its first two scheduled times in order. -/
theorem c9_monotone_witness :
    (planSplit (generate_withdrawal_plan cfgC9 1000000000 [] 0 0 (fun _ => 0)
      0 (fun _ => 0) (fun _ => 0)) 0).scheduled_at ≤
    (planSplit (generate_withdrawal_plan cfgC9 1000000000 [] 0 0 (fun _ => 0)
      0 (fun _ => 0) (fun _ => 0)) 1).scheduled_at :=
  c9_monotone cfgC9 1000000000 [] 0 0 (fun _ => 0) 0 (fun _ => 0) (fun _ => 0)
    0 1 (by decide) (by decide) (by decide) (by decide) (by decide) (by decide)

/-- A `u64` value below the sign threshold is unchanged by the `as i64`
reinterpretation. -/
theorem toI64_eq_self (n : Nat) (h : n < 2 ^ 63) : toI64 n = (n : Int) := by
  unfold toI64
  rw [if_pos h]

/-- Every non-last split amount respects the dust floor: the final clamp of
the loop body forces at least 10000 regardless of the draw, the remaining
balance and the headroom reservation. -/
theorem nonLastAmount_ge (base pr remaining hmul r : Nat) :
    10000 ≤ nonLastAmount base pr remaining hmul r := by
  simp only [nonLastAmount]
  split_ifs <;> omega

/-- A non-last split amount never exceeds the perturbed base (or the dust
floor, whichever is larger): the headroom clamp only ever lowers the drawn
value. -/
theorem nonLastAmount_le (base pr remaining hmul r : Nat)
    (hb : base < 2 ^ 63) (hpr : pr = base / 5) :
    nonLastAmount base pr remaining hmul r ≤ max 10000 (base + pr) := by
  simp only [nonLastAmount]
  have e1 : (pr * 2 % 2 ^ 64 + 1) % 2 ^ 64 = 2 * pr + 1 := by omega
  rw [e1]
  set m := r % 2 ^ 64 % (2 * pr + 1) with hmdef
  have hm : m < 2 * pr + 1 := Nat.mod_lt _ (by omega)
  rw [toI64_eq_self m (by omega), toI64_eq_self pr (by omega),
    toI64_eq_self base hb]
  rw [wrapI64_eq_self ((m : Int) - (pr : Int)) (by push_cast; omega)
    (by push_cast; omega)]
  have hsa : u64cast (wrapI64 ((base : Int) + ((m : Int) - (pr : Int))))
      = base + m - pr := by
    rw [u64cast_wrapI64]
    unfold u64cast
    omega
  rw [hsa]
  split_ifs <;> omega

/-- The amount loop yields `n + 1` entries (`n` non-last plus the last). -/
theorem splitLoopAux_length (rand : Nat → Nat) (base pr : Nat) :
    ∀ (n i r : Nat), (splitLoopAux rand base pr n i r).length = n + 1 := by
  intro n
  induction n with
  | zero => intro i r; rfl
  | succ m ih =>
    intro i r
    simp only [splitLoopAux, List.length_cons]
    rw [ih]

/-- Bounds for every non-last entry produced by the amount loop. -/
theorem splitLoopAux_bounds (rand : Nat → Nat) (base pr : Nat)
    (hb : base < 2 ^ 63) (hpr : pr = base / 5) :
    ∀ (n i r k : Nat), k < n →
      10000 ≤ (splitLoopAux rand base pr n i r).getD k 0 ∧
      (splitLoopAux rand base pr n i r).getD k 0 ≤ max 10000 (base + pr) := by
  intro n
  induction n with
  | zero => intro i r k hk; exact absurd hk (Nat.not_lt_zero k)
  | succ m ih =>
    intro i r k hk
    cases k with
    | zero =>
      simp only [splitLoopAux, List.getD_cons_zero]
      exact ⟨nonLastAmount_ge base pr r (m + 1) (rand i),
        nonLastAmount_le base pr r (m + 1) (rand i) hb hpr⟩
    | succ k2 =>
      simp only [splitLoopAux, List.getD_cons_succ]
      exact ih (i + 1) _ k2 (by omega)

/-- C5 (amended): every split except the last respects the 10,000-unit dust
floor unconditionally — the clamp is applied to every non-last split, for
every total, every valid split count and every outcome of the randomness
draws (the remainder sprinkle cannot push a non-last amount below the floor
either).  The last split, by contrast, simply receives the remaining
balance and can land below the floor even when `total / count ≥ 10000`. -/
theorem c5_amended (total count : Nat) (rand : Nat → Nat) (randRem : Nat)
    (i : Nat) (htot : total < 2 ^ 64) (hc1 : 1 ≤ count)
    (hc5 : count ≤ MAX_SPLITS) (hi : i + 1 < count) :
    10000 ≤ (generate_split_amounts total count rand randRem).getD i 0 := by
  simp only [MAX_SPLITS] at hc5
  simp only [generate_split_amounts]
  rw [if_neg (by simp only [MAX_SPLITS]; omega)]
  set base := total / count with hbasedef
  set pr := base / 5 with hprdef
  set body := splitLoopAux rand base pr (count - 1) 0 total with hbodydef
  have hb : base < 2 ^ 63 := by
    have h2 : base ≤ total / 2 := Nat.div_le_div_left (by omega) (by omega)
    omega
  have hlen : body.length = count := by
    rw [hbodydef, splitLoopAux_length]
    omega
  have hbounds := splitLoopAux_bounds rand base pr hb hprdef (count - 1) 0
    total i (by omega)
  rw [← hbodydef] at hbounds
  have happ : (body ++ List.replicate (MAX_SPLITS - count) 0).getD i 0
      = body.getD i 0 :=
    List.getD_append body (List.replicate (MAX_SPLITS - count) 0) 0 i
      (by omega)
  by_cases hrem : total % count > 0
  · rw [if_pos hrem]
    set idx := randRem % 2 ^ 64 % count with hidxdef
    by_cases heq : i = idx
    · have hialen : i < (body ++ List.replicate (MAX_SPLITS - count) 0).length := by
        rw [List.length_append, List.length_replicate]
        omega
      rw [← heq]
      rw [addAt_getD_self _ i _ hialen, happ]
      have hub : max 10000 (base + pr) ≤ 2 ^ 63 + 2 ^ 61 := by
        apply max_le
        · omega
        · omega
      have hremlt : total % count < count := Nat.mod_lt _ (by omega)
      unfold add64
      omega
    · rw [addAt_getD_ne _ _ _ _ heq, happ]
      exact hbounds.1
  · rw [if_neg hrem, happ]
    exact hbounds.1

/-- Closed witness for the amended dust-floor claim: the first split of a
concrete three-way partition is above the floor. -/
theorem c5_amended_witness :
    10000 ≤ (generate_split_amounts 100000 3 (fun _ => 0) 0).getD 0 0 :=
  c5_amended 100000 3 (fun _ => 0) 0 0 (by decide) (by decide) (by decide)
    (by decide)
